import Mathlib

/-!
# Verification of `chemprop/features/utils.py`

Shallow embedding of the feature-file readers/writers:

* `save_features`  — writes a list of 1D feature vectors to a compressed
  `.npz` archive under the field name `"features"`;
* `load_features`  — extension-dispatched loader (`.npz`, `.npy`,
  `.csv`/`.txt`, `.pkl`/`.pckl`/`.pickle`, otherwise a `ValueError`);
* `load_valid_atom_features` — per-atom feature loader
  (`.pkl`/`.pckl`/`.pickle` pandas table branch, `.sdf` structured-table
  branch, otherwise the local variable `features` is never assigned and
  the final `return features` raises `UnboundLocalError`).

Numeric values are modelled as rationals `ℚ`; numpy arrays as nested
lists (`NDArray`); file contents as an inductive `FileContent` describing
what is stored at a path; Python exceptions as the `PyError` type.  The
external chemistry toolkit's `Chem.MolFromSmiles(x).GetNumAtoms()` is
modelled as an injected map `String → Option Nat` (`none` models
`MolFromSmiles` returning `None`, on which `.GetNumAtoms()` raises
`AttributeError`).
-/

set_option autoImplicit false

namespace ChempropFeatures

/-- Python exceptions that the embedded code can surface. -/
inductive PyError where
  | valueError (msg : String)
  | keyError (key : String)
  | stopIteration
  | indexError
  | attributeError (msg : String)
  | unboundLocalError (name : String)
  | ioError (msg : String)
  deriving Repr, DecidableEq

/-- Decidable equality of `Except` results (not provided by core). -/
instance instDecEqExcept {ε α : Type} [DecidableEq ε] [DecidableEq α] :
    DecidableEq (Except ε α) := fun a b =>
  match a, b with
  | .ok x, .ok y =>
    if h : x = y then .isTrue (by rw [h]) else .isFalse (by simp [h])
  | .error e, .error e' =>
    if h : e = e' then .isTrue (by rw [h]) else .isFalse (by simp [h])
  | .ok _, .error _ => .isFalse (by intro h; exact Except.noConfusion h)
  | .error _, .ok _ => .isFalse (by intro h; exact Except.noConfusion h)

/-- A numpy ndarray, modelled as a nested list of rationals.  A regular
nesting of depth `d` models an array of `ndim d`; `.arr []` models the
1D empty array (numpy's `np.array([])`, shape `(0,)`). -/
inductive NDArray where
  | scalar (x : ℚ)
  | arr (elems : List NDArray)
  deriving Repr

namespace NDArray

/-- Decidable equality of nested arrays (the `deriving` handler does not
support nested inductives). -/
def decEq : (a b : NDArray) → Decidable (a = b)
  | .scalar x, .scalar y =>
    if h : x = y then .isTrue (by rw [h]) else .isFalse (by simp [h])
  | .scalar _, .arr _ => .isFalse (by intro h; exact NDArray.noConfusion h)
  | .arr _, .scalar _ => .isFalse (by intro h; exact NDArray.noConfusion h)
  | .arr [], .arr [] => .isTrue rfl
  | .arr [], .arr (_ :: _) =>
    .isFalse (by intro h; injection h with he; exact List.noConfusion he)
  | .arr (_ :: _), .arr [] =>
    .isFalse (by intro h; injection h with he; exact List.noConfusion he)
  | .arr (x :: xs), .arr (y :: ys) =>
    match decEq x y, decEq (.arr xs) (.arr ys) with
    | .isTrue h1, .isTrue h2 => .isTrue (by
        injection h2 with h3
        rw [h1, h3])
    | .isFalse h1, _ => .isFalse (by
        intro h; injection h with he; injection he with hx hxs; exact h1 hx)
    | _, .isFalse h2 => .isFalse (by
        intro h; injection h with he; injection he with hx hxs
        exact h2 (by rw [hxs]))

instance : DecidableEq NDArray := decEq

/-- `ndim` of a (regular) nested array, matching numpy's `.ndim`. -/
def ndim : NDArray → Nat
  | .scalar _ => 0
  | .arr [] => 1
  | .arr (e :: _) => 1 + e.ndim

/-- `shape` of a (regular) nested array, matching numpy's `.shape`. -/
def shape : NDArray → List Nat
  | .scalar _ => []
  | .arr [] => [0]
  | .arr (e :: es) => (es.length + 1) :: e.shape

/-- The element list along axis 0 (empty for a 0-d array). -/
def elems : NDArray → List NDArray
  | .scalar _ => []
  | .arr es => es

end NDArray

/-- Build a 1D array from a list of rationals. -/
def of1D (xs : List ℚ) : NDArray := .arr (xs.map .scalar)

/-- Build a 2D array from a list of rows. -/
def of2D (m : List (List ℚ)) : NDArray := .arr (m.map of1D)

/-- Contents stored at a path.  `load_features` / `load_valid_atom_features`
dispatch on the path's extension; reading a file whose bytes are not in
the format the branch expects fails inside the decoding library, which we
surface as a `PyError`. -/
inductive PklObject where
  /-- A pickled list of scipy sparse matrices, represented by the dense
  2D contents `feat.todense()` of each matrix. -/
  | sparseList (mats : List (List (List ℚ)))
  /-- A pickled pandas `DataFrame` whose cells are numpy arrays; one inner
  list per table row, one entry per column. -/
  | table (rows : List (List NDArray))
  deriving Repr, DecidableEq

/-- A cell of the table produced by `PandasTools.LoadSDF(path)` after
`.drop(['ID', 'ROMol'], axis=1).set_index('SMILES')`. -/
inductive SdfCell where
  | str (s : String)
  /-- A missing value (`NaN`). -/
  | na
  /-- Any non-string, non-null object. -/
  | obj
  deriving Repr, DecidableEq

/-- The table produced by `PandasTools.LoadSDF` after dropping the
`ID`/`ROMol` columns and setting the `SMILES` index: a SMILES index and
one row of cells per index entry. -/
structure SdfTable where
  index : List String
  cells : List (List SdfCell)
  deriving Repr, DecidableEq

inductive FileContent where
  | npz (entries : List (String × NDArray))
  | npy (a : NDArray)
  /-- A text file, as its list of lines. -/
  | text (lines : List String)
  | pickled (obj : PklObject)
  | sdf (tbl : SdfTable)
  deriving Repr, DecidableEq

/-! ## `os.path.splitext`

`os.path.splitext(path)[1]` on POSIX: the extension starts at the last
`'.'` of the final path component, provided some earlier character of
that component is not a dot (so `".bashrc"` has extension `""`). -/

/-- Index of the last occurrence of `c` in `cs`, if any. -/
def lastIdxOf (cs : List Char) (c : Char) : Option Nat :=
  (List.range cs.length).foldl
    (fun acc i => if cs.getD i c = c ∧ cs.get? i ≠ none then some i else acc) none

/-- `os.path.splitext(path)[1]` (POSIX rules). -/
def splitextExt (path : String) : String :=
  let p := path.toList
  match lastIdxOf p '.' with
  | none => ""
  | some d =>
    let start := match lastIdxOf p '/' with
      | none => 0
      | some s => s + 1
    if start ≤ d ∧ ((p.take d).drop start).any (fun c => c ≠ '.') then
      String.mk (p.drop d)
    else
      ""

/-- Lower-casing of a string, for reasoning about case-sensitivity of the
extension dispatch. -/
def strToLower (s : String) : String := String.mk (s.toList.map Char.toLower)

/-- `pat` occurs as a contiguous substring of `s`. -/
def containsSubstr (s pat : String) : Bool :=
  (List.range (s.toList.length + 1)).any
    (fun i => (s.toList.drop i).take pat.toList.length = pat.toList)

/-! ## Python `float()` parsing

Model of `float(value)` on decimal literals: optional surrounding
whitespace, optional sign, digits with an optional fractional part and an
optional decimal exponent.  (The special values `inf`/`nan` are outside
the scope of this development.)  `none` models `ValueError`. -/

def digitsVal (cs : List Char) : Nat :=
  cs.foldl (fun a c => a * 10 + (c.toNat - 48)) 0

/-- Parse an optionally signed run of digits (used for the exponent). -/
def parseSignedNat (cs : List Char) : Option Int :=
  match cs with
  | '+' :: rest => if rest ≠ [] ∧ rest.all Char.isDigit then some (digitsVal rest) else none
  | '-' :: rest => if rest ≠ [] ∧ rest.all Char.isDigit then some (-(digitsVal rest : Int)) else none
  | _ => if cs ≠ [] ∧ cs.all Char.isDigit then some (digitsVal cs) else none

/-- The rational `±(M / 10 ^ fracLen) * 10 ^ e` denoted by a decimal
literal with digit string of value `M`, `fracLen` fractional digits and
exponent `e` (built with `mkRat` directly so that it evaluates by kernel
reduction). -/
def decimalToRat (neg : Bool) (M : Nat) (fracLen : Nat) (e : Int) : ℚ :=
  let net : Int := e - (fracLen : Int)
  let sm : Int := if neg then -(M : Int) else (M : Int)
  if 0 ≤ net then mkRat (sm * ((10 : Nat) ^ net.toNat : Nat)) 1
  else mkRat sm ((10 : Nat) ^ (-net).toNat)

/-- Parse the mantissa-and-exponent part of a float literal, with the
sign already read off. -/
def parseUnsignedFloat (neg : Bool) (cs : List Char) : Option ℚ :=
  let (mant, expPart) := cs.span (fun c => c ≠ 'e' ∧ c ≠ 'E')
  let (ipart, rest) := mant.span Char.isDigit
  let frac? : Option (List Char) :=
    match rest with
    | [] => some []
    | '.' :: f => if f.all Char.isDigit then some f else none
    | _ => none
  match frac? with
  | none => none
  | some f =>
    if ipart = [] ∧ f = [] then none
    else
      let e? : Option Int :=
        match expPart with
        | [] => some 0
        | _ :: ecs => parseSignedNat ecs
      match e? with
      | none => none
      | some e => some (decimalToRat neg (digitsVal (ipart ++ f)) f.length e)

/-- Model of Python `float(value)` (also of numpy's string-to-float cast). -/
def parseFloat (s : String) : Option ℚ :=
  let cs := (s.toList.dropWhile Char.isWhitespace).reverse.dropWhile Char.isWhitespace |>.reverse
  match cs with
  | '+' :: rest => parseUnsignedFloat false rest
  | '-' :: rest => parseUnsignedFloat true rest
  | _ => parseUnsignedFloat false cs

/-! ## `load_features` -/

/-- Split a character list at every occurrence of `sep` (Python
`str.split(sep)` for a one-character separator: splitting the empty
string gives `[""]`). -/
def splitOnSep (sep : Char) : List Char → List (List Char)
  | [] => [[]]
  | c :: cs =>
    match splitOnSep sep cs with
    | [] => [[]]
    | h :: t => if c = sep then [] :: h :: t else (c :: h) :: t

/-- The splitting `csv.reader` performs on one (unquoted) line; a blank
line yields the empty row. -/
def splitComma (line : String) : List String :=
  if line = "" then [] else (splitOnSep ',' line.toList).map String.mk

/-- `[float(value) for value in row]`. -/
def parseRow (fields : List String) : Except PyError (List ℚ) :=
  fields.mapM (fun v =>
    match parseFloat v with
    | some q => .ok q
    | none => .error (.valueError ("could not convert string to float: " ++ v)))

/-- `np.array` on a list of numeric rows: the empty list gives the 1D
empty array; equal-length rows give a 2D array; ragged rows raise
`ValueError` (inhomogeneous shape). -/
def npArray2OfRows (rows : List (List ℚ)) : Except PyError NDArray :=
  match rows with
  | [] => .ok (.arr [])
  | r :: rest =>
    if rest.all (fun x => x.length = r.length) then .ok (of2D (r :: rest))
    else .error (.valueError "setting an array element with a sequence")

/-- `np.squeeze(np.array(feat.todense()))` on the dense 2D contents of a
sparse matrix: axes of size 1 are removed. -/
def squeeze2 (m : List (List ℚ)) : NDArray :=
  match m with
  | [[x]] => .scalar x
  | [r] => of1D r
  | _ =>
    if m ≠ [] ∧ m.all (fun r => r.length = 1) then
      of1D (m.map (fun r => r.headD 0))
    else of2D m

/-- `np.array` on a list of already-built arrays: stacks them when their
shapes agree, raises otherwise. -/
def npArrayOfNDList (xs : List NDArray) : Except PyError NDArray :=
  match xs with
  | [] => .ok (.arr [])
  | x :: rest =>
    if rest.all (fun y => y.shape = x.shape) then .ok (.arr (x :: rest))
    else .error (.valueError "setting an array element with a sequence")

/-- The extensions `load_features` accepts. -/
def supportedExtensions : List String :=
  [".npz", ".npy", ".csv", ".txt", ".pkl", ".pckl", ".pickle"]

/-- `save_features(path, features)`: `np.savez_compressed(path, features=features)`.
`np.savez` stores `np.asanyarray(features)` under the name `"features"`,
so a list of equal-length 1D arrays is stored as the 2D row-stack (and
the empty list as the 1D empty array); ragged lists raise. -/
def save_features (features : List (List ℚ)) : Except PyError FileContent := do
  let a ← npArray2OfRows features
  .ok (.npz [("features", a)])

/-- `load_features(path)`, reading the given stored content. -/
def load_features (path : String) (content : FileContent) : Except PyError NDArray :=
  let extension := splitextExt path
  if extension = ".npz" then
    match content with
    | .npz entries =>
      match entries.lookup "features" with
      | some a => .ok a
      | none => .error (.keyError "features")
    | _ => .error (.ioError "not a zip archive")
  else if extension = ".npy" then
    match content with
    | .npy a => .ok a
    | _ => .error (.ioError "not an npy array file")
  else if extension ∈ [".csv", ".txt"] then
    match content with
    | .text lines =>
      match lines with
      | [] => .error .stopIteration
      | _ :: dataLines => do
        let rows ← dataLines.mapM (fun line => parseRow (splitComma line))
        npArray2OfRows rows
    | _ => .error (.ioError "not a text file")
  else if extension ∈ [".pkl", ".pckl", ".pickle"] then
    match content with
    | .pickled (.sparseList mats) => npArrayOfNDList (mats.map squeeze2)
    | _ => .error (.ioError "not a pickled list of sparse matrices")
  else
    .error (.valueError ("Features path extension " ++ extension ++ " not supported."))

/-! ## numpy `stack` / `concatenate` along axis 1 -/

/-- Transpose of a rectangular list of lists whose rows all have length
`L` (numpy checks the operand shapes before this is reached). -/
def transposeRect {α : Type} (L : Nat) (xss : List (List α)) : List (List α) :=
  (List.range L).map (fun i => xss.filterMap (fun xs => xs.get? i))

/-- `np.stack(xs, axis=1)`: needs at least one array, all of equal shape
and `ndim ≥ 1`; the operands are interleaved along a new second axis. -/
def stackAxis1 (xs : List NDArray) : Except PyError NDArray :=
  match xs with
  | [] => .error (.valueError "need at least one array to stack")
  | x :: rest =>
    match x with
    | .scalar _ => .error (.valueError "axis 1 is out of bounds for array of dimension 1")
    | .arr es =>
      if (x :: rest).all (fun y => y.shape = x.shape) then
        .ok (.arr ((transposeRect es.length ((x :: rest).map NDArray.elems)).map NDArray.arr))
      else .error (.valueError "all input arrays must have the same shape")

/-- `np.concatenate(xs, axis=1)`: needs at least one array, all of the
same `ndim ≥ 2` and equal shapes away from axis 1; the rows along axis 0
are concatenated pointwise. -/
def concatAxis1 (xs : List NDArray) : Except PyError NDArray :=
  match xs with
  | [] => .error (.valueError "need at least one array to concatenate")
  | x :: rest =>
    if 2 ≤ x.ndim ∧
        (x :: rest).all (fun y => y.ndim = x.ndim ∧ y.shape.eraseIdx 1 = x.shape.eraseIdx 1) then
      .ok (.arr ((transposeRect x.elems.length ((x :: rest).map NDArray.elems)).map
        (fun row => NDArray.arr (row.map NDArray.elems).flatten)))
    else
      .error (.valueError "all the input array dimensions except for the concatenation axis must match exactly")

/-! ## `load_valid_atom_features` -/

/-- `features_df[~features_df.index.duplicated()]`: keep, for every index
key, its first row only. -/
def dedupeByKey (seen : List String) : List (String × List SdfCell) → List (String × List SdfCell)
  | [] => []
  | (k, v) :: rest =>
    if k ∈ seen then dedupeByKey seen rest
    else (k, v) :: dedupeByKey (k :: seen) rest

/-- Boolean-mask column selection `df.iloc[:, mask]` on one row. -/
def applyMask (mask : List Bool) (row : List SdfCell) : List SdfCell :=
  (row.zip mask).filterMap (fun p => if p.2 then some p.1 else none)

/-- `df.reindex(smiles)`: one row per requested key, in request order;
a missing key produces an all-`NaN` row of `ncols` cells. -/
def reindexRows (rows : List (String × List SdfCell)) (ncols : Nat) (smiles : List String) :
    List (String × List SdfCell) :=
  smiles.map (fun s =>
    match rows.lookup s with
    | some cs => (s, cs)
    | none => (s, List.replicate ncols SdfCell.na))

/-- `np.array(x.replace('\r', '').replace('\n', '').split(',')).astype(float)`
on one cell; a non-string cell has no `.replace` (`AttributeError`). -/
def parseSdfCell (c : SdfCell) : Except PyError (List ℚ) :=
  match c with
  | .str s =>
    let cleaned := s.toList.filter (fun ch => ch ≠ '\r' ∧ ch ≠ '\n')
    ((splitOnSep ',' cleaned).map String.mk).mapM (fun piece =>
      match parseFloat piece with
      | some q => .ok q
      | none => .error (.valueError ("could not convert string to float: " ++ piece)))
  | _ => .error (.attributeError "replace")

/-- `features_df.iloc[0, :].apply(lambda x: isinstance(x, str) and ',' in x)`:
the boolean column-selection mask computed from the first table row. -/
def sdfColMask (firstRow : List SdfCell) : List Bool :=
  firstRow.map (fun c =>
    match c with
    | .str s => s.toList.contains ','
    | _ => false)

/-- The tail of the `.sdf` branch after the NaN check: `applymap` the
comma-split float parse over each cell, build the `num_atoms` dictionary
from the chemistry toolkit (its `.GetNumAtoms()` on a failed parse
raises), truncate each vector to the row's atom count, and `np.stack`
each row's vectors along axis 1. -/
def sdfParseStack (rows3 : List (String × List SdfCell))
    (numAtoms : String → Option Nat) : Except PyError (List NDArray) := do
  let parsed ← rows3.mapM (fun p => do
    let vs ← p.2.mapM parseSdfCell
    pure (p.1, vs))
  let _ ← (rows3.map Prod.fst).mapM (fun s =>
    match numAtoms s with
    | some n => Except.ok n
    | none => Except.error (PyError.attributeError "GetNumAtoms"))
  let truncated := parsed.map (fun p =>
    p.2.map (fun v => v.take ((numAtoms p.1).getD 0)))
  truncated.mapM (fun vs => stackAxis1 (vs.map of1D))

/-- The `.sdf` branch after de-duplication produced a non-empty table:
column filtering by the first-row mask, reindexing to the requested
identifier list, the NaN check, and the parse/truncate/stack tail. -/
def sdfProcessRows (rows1 : List (String × List SdfCell)) (firstRow : List SdfCell)
    (smiles : List String) (numAtoms : String → Option Nat) :
    Except PyError (List NDArray) :=
  if (reindexRows (rows1.map (fun p => (p.1, applyMask (sdfColMask firstRow) p.2)))
      ((sdfColMask firstRow).count true) smiles).any
      (fun p => p.2.any (fun c => c = SdfCell.na)) then
    .error (.valueError "Invalid custom atomic descriptors file, Nan found in data")
  else
    sdfParseStack
      (reindexRows (rows1.map (fun p => (p.1, applyMask (sdfColMask firstRow) p.2)))
        ((sdfColMask firstRow).count true) smiles) numAtoms

/-- The `.sdf` branch of `load_valid_atom_features`, acting on the table
`tbl` produced by `PandasTools.LoadSDF(path).drop(['ID', 'ROMol'],
axis=1).set_index('SMILES')`. -/
def load_atom_sdf (tbl : SdfTable) (smiles : List String)
    (numAtoms : String → Option Nat) : Except PyError (List NDArray) :=
  match dedupeByKey [] (tbl.index.zip tbl.cells) with
  | [] => .error .indexError
  | (k0, firstRow) :: rest =>
    sdfProcessRows ((k0, firstRow) :: rest) firstRow smiles numAtoms

/-- `load_valid_atom_features(path, smiles)`, reading the given stored
content; `numAtoms` models the chemistry toolkit's
`Chem.MolFromSmiles(·).GetNumAtoms()`.  The local `features` starts
unassigned (`none`) and is assigned only inside the two matched
branches; an unmatched extension reaches `return features` with it
still unbound. -/
def load_valid_atom_features (path : String) (content : FileContent)
    (smiles : List String) (numAtoms : String → Option Nat) :
    Except PyError (List NDArray) := do
  let extension := splitextExt path
  let f0 : Option (List NDArray) := none
  let f1 ← (if extension ∈ [".pkl", ".pckl", ".pickle"] then
      match content with
      | .pickled (.table rows) =>
        match rows.head?.bind List.head? with
        | none => .error .indexError
        | some c0 =>
          if c0.ndim = 1 then (rows.mapM stackAxis1).map Option.some
          else if c0.ndim = 2 then (rows.mapM concatAxis1).map Option.some
          else .error (.valueError ("Atom descriptors input " ++ path ++ " format not supported"))
      | _ => .error (.ioError "not a pickled pandas table")
    else .ok f0)
  let f2 ← (if extension = ".sdf" then
      match content with
      | .sdf tbl => (load_atom_sdf tbl smiles numAtoms).map Option.some
      | _ => .error (.ioError "not a structured-data file")
    else .ok f1)
  match f2 with
  | some features => .ok features
  | none => .error (.unboundLocalError "features")

/-- Sufficient well-formedness of a stored file for `load_features` to
produce a 2D result: the archive / raw-array formats must store a 2D
array, a delimited-text file must have at least one data row after the
header, and a pickled sparse list must be non-empty with every matrix
densifying-and-squeezing to 1D. -/
def wellFormed2D : FileContent → Prop
  | .npz es => ∀ a, es.lookup "features" = some a → a.ndim = 2
  | .npy a => a.ndim = 2
  | .text lines => 2 ≤ lines.length
  | .pickled (.sparseList mats) => mats ≠ [] ∧ ∀ m ∈ mats, (squeeze2 m).ndim = 1
  | .pickled (.table _) => False
  | .sdf _ => False

/-! ## General lemmas about the embedding -/

theorem of1D_ndim (xs : List ℚ) : (of1D xs).ndim = 1 := by
  cases xs <;> simp [of1D, NDArray.ndim]

theorem of1D_shape (xs : List ℚ) : (of1D xs).shape = [xs.length] := by
  cases xs <;> simp [of1D, NDArray.shape]

theorem of2D_ndim (m : List (List ℚ)) (hne : m ≠ []) : (of2D m).ndim = 2 := by
  match m with
  | [] => exact absurd rfl hne
  | r :: rest => simp [of2D, NDArray.ndim, of1D_ndim]

theorem of2D_shape (m : List (List ℚ)) (K : Nat) (hne : m ≠ [])
    (hlen : ∀ r ∈ m, r.length = K) : (of2D m).shape = [m.length, K] := by
  match m with
  | [] => exact absurd rfl hne
  | r :: rest =>
    simp [of2D, NDArray.shape, of1D_shape, hlen r (List.mem_cons_self r rest)]

theorem exceptBind_eq_ok {α β : Type} (x : Except PyError α) (g : α → Except PyError β)
    (b : β) : (x >>= g) = .ok b ↔ ∃ a, x = .ok a ∧ g a = .ok b := by
  cases x with
  | ok a =>
    constructor
    · intro h; exact ⟨a, rfl, h⟩
    · rintro ⟨a', ha, hg⟩; cases ha; exact hg
  | error e =>
    constructor
    · intro h; exact Except.noConfusion h
    · rintro ⟨a', ha, -⟩; exact Except.noConfusion ha

theorem mapM_map {α β γ : Type} (g : α → β) (f : β → Except PyError γ) (l : List α) :
    (l.map g).mapM f = l.mapM (fun a => f (g a)) := by
  rw [← List.mapM'_eq_mapM, ← List.mapM'_eq_mapM]
  induction l with
  | nil => rfl
  | cons a t ih =>
    show (f (g a) >>= fun b => (t.map g).mapM' f >>= fun bs => pure (b :: bs)) = _
    rw [ih]
    rfl

theorem mapM_ok_of_forall {α β : Type} (f : α → Except PyError β) (g : α → β) :
    ∀ l : List α, (∀ x ∈ l, f x = .ok (g x)) → l.mapM f = .ok (l.map g) := by
  intro l
  rw [← List.mapM'_eq_mapM]
  induction l with
  | nil => intro _; rfl
  | cons a t ih =>
    intro h
    have ht := ih (fun x hx => h x (List.mem_cons_of_mem a hx))
    have ha := h a (List.mem_cons_self a t)
    show (f a >>= fun b => t.mapM' f >>= fun bs => pure (b :: bs)) = _
    rw [ha, ht]
    rfl

theorem mapM_length_of_ok {α β : Type} (f : α → Except PyError β) :
    ∀ (l : List α) (bs : List β), l.mapM f = .ok bs → bs.length = l.length := by
  intro l
  rw [← List.mapM'_eq_mapM]
  induction l with
  | nil =>
    intro bs h
    cases h
    rfl
  | cons a t ih =>
    intro bs h
    rw [show (a :: t).mapM' f = f a >>= fun b => t.mapM' f >>= fun bs => pure (b :: bs)
      from rfl] at h
    rcases (exceptBind_eq_ok _ _ _).1 h with ⟨b, -, h2⟩
    rcases (exceptBind_eq_ok _ _ _).1 h2 with ⟨cs, hcs, h3⟩
    cases h3
    simp [ih cs hcs]

theorem mapM_error_pred {α β : Type} (f : α → Except PyError β) (P : PyError → Prop) :
    ∀ l : List α, (∀ x ∈ l, ∀ e, f x = .error e → P e) →
      ∀ e, l.mapM f = .error e → P e := by
  intro l
  rw [← List.mapM'_eq_mapM]
  induction l with
  | nil => intro _ e h; exact Except.noConfusion h
  | cons a t ih =>
    intro hf e h
    rw [show (a :: t).mapM' f = f a >>= fun b => t.mapM' f >>= fun bs => pure (b :: bs)
      from rfl] at h
    cases hfa : f a with
    | error e' =>
      rw [hfa] at h
      cases h
      exact hf a (List.mem_cons_self a t) _ hfa
    | ok b =>
      rw [hfa] at h
      cases hmt : t.mapM' f with
      | error e' =>
        rw [show ((Except.ok b >>= fun b => t.mapM' f >>= fun bs => pure (b :: bs)) :
            Except PyError (List β)) = t.mapM' f >>= fun bs => pure (b :: bs) from rfl,
          hmt] at h
        cases h
        exact ih (fun x hx => hf x (List.mem_cons_of_mem a hx)) _ hmt
      | ok bs =>
        rw [show ((Except.ok b >>= fun b => t.mapM' f >>= fun bs => pure (b :: bs)) :
            Except PyError (List β)) = t.mapM' f >>= fun bs => pure (b :: bs) from rfl,
          hmt] at h
        cases h

theorem mapM_error_exists {α β : Type} (f : α → Except PyError β) :
    ∀ l : List α, (∃ x ∈ l, ∀ b, f x ≠ .ok b) → ∃ e, l.mapM f = .error e := by
  intro l
  rw [← List.mapM'_eq_mapM]
  induction l with
  | nil => intro hex; simp at hex
  | cons a t ih =>
    intro hex
    rw [show (a :: t).mapM' f = f a >>= fun b => t.mapM' f >>= fun bs => pure (b :: bs)
      from rfl]
    cases hfa : f a with
    | error e => exact ⟨e, rfl⟩
    | ok b =>
      rcases hex with ⟨x, hx, hnot⟩
      rcases List.mem_cons.1 hx with rfl | hxt
      · exact absurd hfa (hnot b)
      · rcases ih ⟨x, hxt, hnot⟩ with ⟨e, he⟩
        refine ⟨e, ?_⟩
        show (t.mapM' f >>= fun bs => pure (b :: bs)) = Except.error e
        rw [he]
        rfl

theorem lookup_none_of_keys {β : Type} (rows : List (String × β)) (s : String)
    (h : ∀ p ∈ rows, p.1 ≠ s) : rows.lookup s = none := by
  induction rows with
  | nil => rfl
  | cons p t ih =>
    obtain ⟨k, v⟩ := p
    have hne : (s == k) = false := by
      rw [beq_eq_false_iff_ne]
      exact fun hs => h (k, v) (List.mem_cons_self _ t) (hs ▸ rfl)
    rw [List.lookup, hne]
    exact ih (fun q hq => h q (List.mem_cons_of_mem _ hq))

theorem load_features_unsupported (path : String) (content : FileContent)
    (h : splitextExt path ∉ supportedExtensions) :
    load_features path content =
      .error (.valueError ("Features path extension " ++ splitextExt path ++ " not supported.")) := by
  simp only [supportedExtensions, List.mem_cons, List.not_mem_nil, or_false, not_or] at h
  obtain ⟨h1, h2, h3, h4, h5, h6, h7⟩ := h
  simp [load_features, h1, h2, h3, h4, h5, h6, h7]

theorem containsSubstr_append_middle (a x b : String) :
    containsSubstr (a ++ x ++ b) x = true := by
  unfold containsSubstr
  rw [List.any_eq_true]
  have htl : (a ++ x ++ b).toList = a.toList ++ (x.toList ++ b.toList) := by
    simp [String.toList, String.data_append]
  refine ⟨a.toList.length, ?_, ?_⟩
  · rw [List.mem_range, htl]
    simp only [List.length_append]
    omega
  · rw [decide_eq_true_eq, htl, List.drop_left, List.take_left]

/-! ## Claim theorems -/

/-- C2: for every path whose extension is none of the recognized cases
(`.pkl`/`.pckl`/`.pickle` or `.sdf`), `load_valid_atom_features` does not
raise an explicit unsupported-extension error: neither branch assigns the
result variable `features`, so the final `return features` surfaces the
unbound local variable (and in particular no `ValueError` is raised). -/
theorem load_valid_atom_features_unmatched_extension (path : String)
    (content : FileContent) (smiles : List String) (numAtoms : String → Option Nat)
    (h1 : splitextExt path ∉ [".pkl", ".pckl", ".pickle"])
    (h2 : splitextExt path ≠ ".sdf") :
    load_valid_atom_features path content smiles numAtoms =
        .error (.unboundLocalError "features") ∧
      ∀ msg, load_valid_atom_features path content smiles numAtoms ≠
        .error (.valueError msg) := by
  have hmain : load_valid_atom_features path content smiles numAtoms =
      .error (.unboundLocalError "features") := by
    simp only [load_valid_atom_features, h1, h2]
    rfl
  refine ⟨hmain, fun msg hcontra => ?_⟩
  rw [hmain] at hcontra
  exact PyError.noConfusion (Except.error.inj hcontra)

/-- Witness for C2 at the concrete path `feats.xyz`. -/
theorem load_valid_atom_features_unmatched_extension_witness :
    load_valid_atom_features "feats.xyz" (.text []) [] (fun _ => none) =
      .error (.unboundLocalError "features") :=
  (load_valid_atom_features_unmatched_extension "feats.xyz" (.text []) [] (fun _ => none)
    (by decide) (by decide)).1

/-- C3: for every path whose extension is not one of `.npz`, `.npy`,
`.csv`, `.txt`, `.pkl`, `.pckl`, `.pickle`, `load_features` fails with a
`ValueError` whose message names the offending extension. -/
theorem load_features_unsupported_extension (path : String) (content : FileContent)
    (h : splitextExt path ∉ supportedExtensions) :
    load_features path content =
        .error (.valueError
          ("Features path extension " ++ splitextExt path ++ " not supported.")) ∧
      containsSubstr ("Features path extension " ++ splitextExt path ++ " not supported.")
        (splitextExt path) = true :=
  ⟨load_features_unsupported path content h,
    containsSubstr_append_middle "Features path extension " (splitextExt path)
      " not supported."⟩

/-- Witness for C3 at the concrete path `feats.xyz`. -/
theorem load_features_unsupported_extension_witness :
    load_features "feats.xyz" (.text []) =
        .error (.valueError "Features path extension .xyz not supported.") ∧
      containsSubstr "Features path extension .xyz not supported." ".xyz" = true :=
  load_features_unsupported_extension "feats.xyz" (.text []) (by decide)

/-- C9: the `smiles` identifier list does not influence the result of
`load_valid_atom_features` on a path with a serialized-object extension
(`.pkl`/`.pckl`/`.pickle`): any two identifier lists give the same
result on the same stored content. -/
theorem load_valid_atom_features_smiles_noninterference (path : String)
    (content : FileContent) (numAtoms : String → Option Nat)
    (smiles1 smiles2 : List String)
    (h : splitextExt path ∈ [".pkl", ".pckl", ".pickle"]) :
    load_valid_atom_features path content smiles1 numAtoms =
      load_valid_atom_features path content smiles2 numAtoms := by
  have hsdf : splitextExt path ≠ ".sdf" := by
    simp only [List.mem_cons, List.not_mem_nil, or_false] at h
    rcases h with h | h | h <;> rw [h] <;> decide
  simp [load_valid_atom_features, hsdf]

/-- Witness for C9: two different identifier lists on the same pickled
table. -/
theorem load_valid_atom_features_smiles_noninterference_witness :
    load_valid_atom_features "feats.pkl" (.pickled (.table [[of1D [1, 2]]]))
        ["CC"] (fun _ => none) =
      load_valid_atom_features "feats.pkl" (.pickled (.table [[of1D [1, 2]]]))
        ["O", "N"] (fun _ => none) :=
  load_valid_atom_features_smiles_noninterference "feats.pkl"
    (.pickled (.table [[of1D [1, 2]]])) (fun _ => none) ["CC"] ["O", "N"] (by decide)

/-- C10: the extension dispatch of `load_features` is case-sensitive:
a path whose extension is not supported but differs from a supported one
only in letter case still takes the unsupported-extension branch. -/
theorem load_features_extension_case_sensitive (path : String) (content : FileContent)
    (hnot : splitextExt path ∉ supportedExtensions)
    (_hlower : strToLower (splitextExt path) ∈ supportedExtensions) :
    load_features path content =
      .error (.valueError
        ("Features path extension " ++ splitextExt path ++ " not supported.")) :=
  load_features_unsupported path content hnot

/-- Witness for C10 at the concrete path `feats.CSV`. -/
theorem load_features_extension_case_sensitive_witness :
    load_features "feats.CSV" (.text ["a,b", "1,2"]) =
      .error (.valueError "Features path extension .CSV not supported.") :=
  load_features_extension_case_sensitive "feats.CSV" (.text ["a,b", "1,2"])
    (by decide) (by decide)

theorem exceptBind_error {α β : Type} (e : PyError) (g : α → Except PyError β) :
    (Except.error e >>= g : Except PyError β) = .error e := rfl

theorem exceptBind_ok {α β : Type} (a : α) (g : α → Except PyError β) :
    (Except.ok a >>= g : Except PyError β) = g a := rfl

theorem parseRow_error_valueError (fields : List String) :
    ∀ e, parseRow fields = .error e → ∃ m, e = .valueError m := by
  refine mapM_error_pred _ _ fields ?_
  intro v _ e he
  revert he
  cases hp : parseFloat v with
  | some q => intro he; exact Except.noConfusion he
  | none =>
    intro he
    exact ⟨_, (Except.error.inj he).symm⟩

theorem parseRow_not_ok_of_bad (fields : List String) (v : String) (hv : v ∈ fields)
    (hbad : parseFloat v = none) : ∀ b, parseRow fields ≠ .ok b := by
  intro b hok
  have hok' : fields.mapM (fun w =>
      match parseFloat w with
      | some q => Except.ok q
      | none => Except.error (PyError.valueError ("could not convert string to float: " ++ w)))
      = Except.ok b := hok
  rcases mapM_error_exists (fun w =>
      match parseFloat w with
      | some q => Except.ok q
      | none => Except.error (PyError.valueError ("could not convert string to float: " ++ w)))
      fields ⟨v, hv, fun c hc => by simp [hbad] at hc⟩
    with ⟨e, he⟩
  rw [he] at hok'
  exact Except.noConfusion hok'

/-- C1 counterexample: saving the empty list of feature vectors stores
the 1D empty array (`np.asanyarray([])` has shape `(0,)`), so loading it
back yields a 1D array, not a 2D array of shape `(0, D)`. -/
theorem save_then_load_empty_counterexample :
    save_features [] = .ok (FileContent.npz [("features", NDArray.arr [])]) ∧
    load_features "feats.npz" (FileContent.npz [("features", NDArray.arr [])]) =
      .ok (NDArray.arr []) ∧
    (NDArray.arr []).ndim = 1 :=
  ⟨rfl, rfl, rfl⟩

/-- C1 (amended): for every non-empty list of `N` 1D numeric arrays each
of length `D`, `save_features` stores their row-wise stacking under the
name `"features"`, and `load_features` on the resulting `.npz` file
returns exactly that 2D array of shape `(N, D)`. -/
theorem save_then_load_roundtrip (path : String) (features : List (List ℚ)) (D : Nat)
    (hne : features ≠ []) (hlen : ∀ r ∈ features, r.length = D)
    (hext : splitextExt path = ".npz") :
    save_features features = .ok (.npz [("features", of2D features)]) ∧
    load_features path (.npz [("features", of2D features)]) = .ok (of2D features) ∧
    (of2D features).ndim = 2 ∧ (of2D features).shape = [features.length, D] := by
  have hsave : npArray2OfRows features = .ok (of2D features) := by
    match features, hne with
    | r :: rest, _ =>
      have hc : rest.all (fun x => x.length = r.length) = true := by
        rw [List.all_eq_true]
        intro x hx
        rw [decide_eq_true_eq, hlen x (List.mem_cons_of_mem r hx),
          hlen r (List.mem_cons_self r rest)]
      simp [npArray2OfRows, hc]
  refine ⟨?_, ?_, of2D_ndim features hne, of2D_shape features D hne hlen⟩
  · show (npArray2OfRows features >>= fun a =>
        Except.ok (FileContent.npz [("features", a)])) =
      Except.ok (FileContent.npz [("features", of2D features)])
    rw [hsave, exceptBind_ok]
  · simp [load_features, hext, List.lookup]

/-- Witness for C1 (amended) at a concrete 2×2 input. -/
theorem save_then_load_roundtrip_witness :
    save_features [[(1 : ℚ), 2], [3, 4]] =
        .ok (.npz [("features", of2D [[1, 2], [3, 4]])]) ∧
      load_features "feats.npz" (.npz [("features", of2D [[1, 2], [3, 4]])]) =
        .ok (of2D [[1, 2], [3, 4]]) ∧
      (of2D [[1, 2], [3, 4]]).ndim = 2 ∧ (of2D [[1, 2], [3, 4]]).shape = [2, 2] :=
  save_then_load_roundtrip "feats.npz" [[1, 2], [3, 4]] 2 (by decide) (by decide)
    (by decide)

/-- C5: loading a `.csv` through `load_features` skips the header line
and parses every remaining line as comma-separated floats (for the file
with header `a,b` and rows `1,2` / `3,4` the result is
`[[1.0, 2.0], [3.0, 4.0]]`), and a non-numeric value in any data row
makes the call fail with a parse `ValueError`. -/
theorem load_features_csv_parse :
    load_features "feats.csv" (.text ["a,b", "1,2", "3,4"]) =
        .ok (of2D [[1, 2], [3, 4]]) ∧
      ∀ (path : String) (lines : List String),
        splitextExt path ∈ [".csv", ".txt"] →
        (∃ l ∈ lines.tail, ∃ v ∈ splitComma l, parseFloat v = none) →
        ∃ msg, load_features path (.text lines) = .error (.valueError msg) := by
  refine ⟨rfl, ?_⟩
  intro path lines hext hbad
  match lines with
  | [] =>
    rcases hbad with ⟨l, hl, -⟩
    exact absurd hl (List.not_mem_nil l)
  | l0 :: dl =>
    have hex : ∃ l ∈ dl, ∀ b, parseRow (splitComma l) ≠ Except.ok b := by
      rcases hbad with ⟨l, hl, v, hv, hvnone⟩
      exact ⟨l, by simpa using hl, parseRow_not_ok_of_bad _ v hv hvnone⟩
    rcases mapM_error_exists (fun line => parseRow (splitComma line)) dl hex with ⟨e, he⟩
    have hP : ∃ m, e = PyError.valueError m := by
      refine mapM_error_pred (fun line => parseRow (splitComma line))
        (fun e' => ∃ m, e' = PyError.valueError m) dl ?_ e he
      intro line _ e' he'
      exact parseRow_error_valueError (splitComma line) e' he'
    rcases hP with ⟨m, rfl⟩
    refine ⟨m, ?_⟩
    have he' : List.mapM.loop (fun line => parseRow (splitComma line)) dl [] =
        Except.error (PyError.valueError m) := he
    have hcsv : splitextExt path = ".csv" ∨ splitextExt path = ".txt" := by
      simpa using hext
    rcases hcsv with h | h <;>
      simp [load_features, h, he, he', exceptBind_error]

/-- Witness for C5's parse-error conjunct: a `.txt` file whose data row
contains the non-numeric value `x`. -/
theorem load_features_csv_parse_witness :
    ∃ msg, load_features "feats.txt" (.text ["h", "1,x"]) = .error (.valueError msg) :=
  load_features_csv_parse.2 "feats.txt" ["h", "1,x"] (by decide) (by decide)

/-- C4 counterexample: a supported `.csv` input containing only the
header line loads successfully to the 1D empty array
(`np.array([])`, shape `(0,)`), so `load_features` does not always
return a 2D array. -/
theorem load_features_header_only_counterexample :
    load_features "data.csv" (.text ["a,b"]) = .ok (NDArray.arr []) ∧
    (NDArray.arr []).ndim ≠ 2 :=
  ⟨rfl, by decide⟩

theorem npArray2OfRows_ok_ndim (rows : List (List ℚ)) (a : NDArray)
    (hne : rows ≠ []) (h : npArray2OfRows rows = .ok a) : a.ndim = 2 := by
  match rows, hne with
  | r :: rest, _ =>
    have h' : (if rest.all (fun x => x.length = r.length) then
          Except.ok (of2D (r :: rest))
        else Except.error (PyError.valueError "setting an array element with a sequence"))
        = Except.ok a := h
    split at h'
    · cases h'
      exact of2D_ndim _ (by simp)
    · exact Except.noConfusion h'

theorem npArrayOfNDList_ok_ndim (xs : List NDArray) (a : NDArray) (hne : xs ≠ [])
    (h1 : ∀ x ∈ xs, x.ndim = 1) (h : npArrayOfNDList xs = .ok a) : a.ndim = 2 := by
  match xs, hne with
  | x :: rest, _ =>
    have h' : (if rest.all (fun y => y.shape = x.shape) then
          Except.ok (NDArray.arr (x :: rest))
        else Except.error (PyError.valueError "setting an array element with a sequence"))
        = Except.ok a := h
    split at h'
    · cases h'
      show 1 + x.ndim = 2
      rw [h1 x (List.mem_cons_self x rest)]
    · exact Except.noConfusion h'

/-- C4 (amended): whenever `load_features` succeeds on a well-formed
stored file — the archive/raw-array formats hold a 2D array, the text
format has at least one data row, and the pickled sparse list is
non-empty with every matrix squeezing to 1D — the returned array is 2D.
(The `.csv`/`.txt` branch builds rows of parsed floats and the pickle
branch densifies, squeezes and stacks, as the claim describes.) -/
theorem load_features_2D_on_wellformed (path : String) (content : FileContent)
    (a : NDArray) (hok : load_features path content = .ok a)
    (hwf : wellFormed2D content) : a.ndim = 2 := by
  cases content with
  | npz es =>
    simp only [load_features] at hok
    split at hok
    · split at hok
      · cases hok
        exact hwf _ (by assumption)
      · exact Except.noConfusion hok
    · split at hok
      · exact Except.noConfusion hok
      · split at hok
        · exact Except.noConfusion hok
        · split at hok
          · exact Except.noConfusion hok
          · exact Except.noConfusion hok
  | npy b =>
    simp only [load_features] at hok
    split at hok
    · exact Except.noConfusion hok
    · split at hok
      · cases hok
        exact hwf
      · split at hok
        · exact Except.noConfusion hok
        · split at hok
          · exact Except.noConfusion hok
          · exact Except.noConfusion hok
  | text lines =>
    simp only [load_features] at hok
    split at hok
    · exact Except.noConfusion hok
    · split at hok
      · exact Except.noConfusion hok
      · split at hok
        · cases lines with
          | nil => simp [wellFormed2D] at hwf
          | cons l0 dl =>
            have hwf2 : 2 ≤ (l0 :: dl).length := hwf
            have hok' : (dl.mapM (fun line => parseRow (splitComma line)) >>=
                npArray2OfRows) = Except.ok a := hok
            rcases (exceptBind_eq_ok _ _ _).1 hok' with ⟨rows, hrows, h2⟩
            refine npArray2OfRows_ok_ndim rows a ?_ h2
            have hlen := mapM_length_of_ok _ dl rows hrows
            have hdl : 2 ≤ dl.length + 1 := by simpa using hwf2
            intro hnil
            subst hnil
            simp at hlen
            omega
        · split at hok
          · exact Except.noConfusion hok
          · exact Except.noConfusion hok
  | pickled obj =>
    cases obj with
    | sparseList mats =>
      simp only [load_features] at hok
      split at hok
      · exact Except.noConfusion hok
      · split at hok
        · exact Except.noConfusion hok
        · split at hok
          · exact Except.noConfusion hok
          · split at hok
            · obtain ⟨hne, h1d⟩ := hwf
              refine npArrayOfNDList_ok_ndim (mats.map squeeze2) a ?_ ?_ hok
              · intro hmapnil
                exact hne (List.map_eq_nil_iff.1 hmapnil)
              · intro x hx
                rcases List.mem_map.1 hx with ⟨m, hm, rfl⟩
                exact h1d m hm
            · exact Except.noConfusion hok
    | table rows =>
      simp only [load_features] at hok
      split at hok
      · exact Except.noConfusion hok
      · split at hok
        · exact Except.noConfusion hok
        · split at hok
          · exact Except.noConfusion hok
          · split at hok
            · exact Except.noConfusion hok
            · exact Except.noConfusion hok
  | sdf tbl => exact hwf.elim

/-- Witness for C4 (amended): a `.csv` with one data row loads to a 2D
array. -/
theorem load_features_2D_on_wellformed_witness :
    (of2D [[1, 2]]).ndim = 2 :=
  load_features_2D_on_wellformed "data2.csv" (.text ["a,b", "1,2"]) (of2D [[1, 2]])
    rfl (by simp [wellFormed2D])

theorem transposeRect_length {α : Type} (L : Nat) (xss : List (List α)) :
    (transposeRect L xss).length = L := by
  simp [transposeRect]

theorem filterMap_get?_length {α : Type} (xss : List (List α)) (i : Nat)
    (h : ∀ xs ∈ xss, i < xs.length) :
    (xss.filterMap (fun xs => xs.get? i)).length = xss.length := by
  induction xss with
  | nil => rfl
  | cons xs t ih =>
    rcases hsome : xs.get? i with _ | v
    · exact absurd hsome (by
        rw [List.get?_eq_get (h xs (List.mem_cons_self xs t))]
        simp)
    · rw [List.filterMap_cons, hsome]
      show (v :: t.filterMap (fun ys => ys.get? i)).length = (xs :: t).length
      rw [List.length_cons, List.length_cons,
        ih (fun ys hy => h ys (List.mem_cons_of_mem xs hy))]

theorem transposeRect_mem_length {α : Type} (L K : Nat) (xss : List (List α))
    (hK : xss.length = K) (h : ∀ xs ∈ xss, L ≤ xs.length) :
    ∀ col ∈ transposeRect L xss, col.length = K := by
  intro col hcol
  rcases List.mem_map.1 hcol with ⟨i, hi, rfl⟩
  rw [List.mem_range] at hi
  rw [filterMap_get?_length xss i (fun xs hxs => lt_of_lt_of_le hi (h xs hxs)), hK]

theorem transposeRect_map {α β : Type} (f : α → β) (L : Nat) (xss : List (List α)) :
    transposeRect L (xss.map (List.map f)) = (transposeRect L xss).map (List.map f) := by
  unfold transposeRect
  rw [List.map_map]
  apply List.map_congr_left
  intro i _
  show (xss.map (List.map f)).filterMap (fun xs => xs.get? i) =
    List.map f (xss.filterMap (fun xs => xs.get? i))
  rw [List.filterMap_map]
  rw [List.map_filterMap]
  apply List.filterMap_congr
  intro xs _
  show (List.map f xs).get? i = (xs.get? i).map f
  exact List.get?_map f xs i

theorem stackAxis1_of1D (vs : List (List ℚ)) (L : Nat) (hne : vs ≠ [])
    (hlen : ∀ v ∈ vs, v.length = L) :
    stackAxis1 (vs.map of1D) = .ok (of2D (transposeRect L vs)) := by
  match vs, hne with
  | v0 :: vt, _ =>
    have hstep : stackAxis1 (of1D v0 :: vt.map of1D) =
        (if (of1D v0 :: vt.map of1D).all (fun y => y.shape = (of1D v0).shape) then
          Except.ok (.arr ((transposeRect (v0.map NDArray.scalar).length
            ((of1D v0 :: vt.map of1D).map NDArray.elems)).map NDArray.arr))
        else Except.error (.valueError "all input arrays must have the same shape")) := rfl
    have hcond : ((of1D v0 :: vt.map of1D).all fun y => y.shape = (of1D v0).shape) = true := by
      rw [List.all_eq_true]
      intro y hy
      rcases List.mem_cons.1 hy with rfl | hy'
      · simp
      · rcases List.mem_map.1 hy' with ⟨v, hv, rfl⟩
        rw [decide_eq_true_eq, of1D_shape, of1D_shape,
          hlen v (List.mem_cons_of_mem v0 hv), hlen v0 (List.mem_cons_self v0 vt)]
    show stackAxis1 (of1D v0 :: vt.map of1D) = _
    rw [hstep, if_pos hcond]
    have hLv : (v0.map NDArray.scalar).length = L := by
      rw [List.length_map]
      exact hlen v0 (List.mem_cons_self v0 vt)
    have helems : (of1D v0 :: vt.map of1D).map NDArray.elems =
        (v0 :: vt).map (List.map NDArray.scalar) := by
      rw [List.map_cons, List.map_map, List.map_cons]
      rfl
    rw [hLv, helems, transposeRect_map, List.map_map]
    rfl

/-- Evaluation of the `.pkl` branch of `load_valid_atom_features` when
the first cell is 1D and every per-row stack succeeds. -/
theorem load_valid_atom_features_pkl_eval (path : String) (rows : List (List NDArray))
    (smiles : List String) (numAtoms : String → Option Nat) (c0 : NDArray)
    (hext : splitextExt path ∈ [".pkl", ".pckl", ".pickle"])
    (hc0 : rows.head?.bind List.head? = some c0) (h1 : c0.ndim = 1)
    (out : List NDArray) (hstack : rows.mapM stackAxis1 = .ok out) :
    load_valid_atom_features path (.pickled (.table rows)) smiles numAtoms = .ok out := by
  have hsdf : splitextExt path ≠ ".sdf" := by
    simp only [List.mem_cons, List.not_mem_nil, or_false] at hext
    rcases hext with h | h | h <;> rw [h] <;> decide
  have hstack' : List.mapM.loop stackAxis1 rows [] = Except.ok out := hstack
  simp [load_valid_atom_features, hext, hsdf, hc0, h1, hstack, hstack', exceptBind_ok]
  rfl

/-- C6: in the serialized-object branch of `load_valid_atom_features`,
when the cells are 1D blocks (of a common length `L`, in a rectangular
table with `K ≥ 1` columns), each table row's blocks are stacked
column-wise into one 2D array per row, returned in table order: the
result maps row `r` to the transpose of its cell vectors and each
returned array has shape `(L, K)`. -/
theorem load_valid_atom_features_pkl_1D (path : String) (qrows : List (List (List ℚ)))
    (smiles : List String) (numAtoms : String → Option Nat) (K L : Nat)
    (hext : splitextExt path ∈ [".pkl", ".pckl", ".pickle"])
    (hne : qrows ≠ []) (hK : 0 < K) (hL : 0 < L)
    (hcols : ∀ r ∈ qrows, r.length = K)
    (hvlen : ∀ r ∈ qrows, ∀ v ∈ r, v.length = L) :
    load_valid_atom_features path
        (.pickled (.table (qrows.map (fun r => r.map of1D)))) smiles numAtoms
      = .ok (qrows.map (fun r => of2D (transposeRect L r))) ∧
    (qrows.map (fun r => of2D (transposeRect L r))).length = qrows.length ∧
    ∀ a ∈ qrows.map (fun r => of2D (transposeRect L r)), a.shape = [L, K] := by
  have hstack : (qrows.map (fun r => r.map of1D)).mapM stackAxis1 =
      .ok (qrows.map (fun r => of2D (transposeRect L r))) := by
    rw [mapM_map]
    refine mapM_ok_of_forall _ _ qrows ?_
    intro r hr
    have hrne : r ≠ [] := by
      intro h0
      have hlen0 := hcols r hr
      rw [h0] at hlen0
      simp at hlen0
      omega
    exact stackAxis1_of1D r L hrne (hvlen r hr)
  obtain ⟨q0, qt, rfl⟩ : ∃ q0 qt, qrows = q0 :: qt := by
    match qrows, hne with
    | q0 :: qt, _ => exact ⟨q0, qt, rfl⟩
  have hq0 : q0 ≠ [] := by
    intro h0
    have hlen0 := hcols q0 (List.mem_cons_self q0 qt)
    rw [h0] at hlen0
    simp at hlen0
    omega
  obtain ⟨v0, vt, rfl⟩ : ∃ v0 vt, q0 = v0 :: vt := by
    match q0, hq0 with
    | v0 :: vt, _ => exact ⟨v0, vt, rfl⟩
  refine ⟨load_valid_atom_features_pkl_eval path
      (((v0 :: vt) :: qt).map (fun (r : List (List ℚ)) => r.map of1D))
      smiles numAtoms (of1D v0) hext rfl
      (of1D_ndim v0) _ hstack, by simp, ?_⟩
  intro a ha
  rcases List.mem_map.1 ha with ⟨r, hr, rfl⟩
  have hTlen := transposeRect_length L r
  have hTne : transposeRect L r ≠ [] := by
    intro h0
    rw [h0] at hTlen
    simp at hTlen
    omega
  have hcolslen : ∀ col ∈ transposeRect L r, col.length = K :=
    transposeRect_mem_length L K r (hcols r hr)
      (fun v hv => le_of_eq (hvlen r hr v hv).symm)
  rw [of2D_shape _ K hTne hcolslen, hTlen]

/-- Witness for C6: a 2-row, 2-column pickled table of 1D length-3 cells
returns 2 arrays, each of shape `(3, 2)`. -/
theorem load_valid_atom_features_pkl_1D_witness :
    load_valid_atom_features "atom.pkl"
        (.pickled (.table (([[[1, 2, 3], [4, 5, 6]], [[7, 8, 9], [10, 11, 12]]] :
            List (List (List ℚ))).map (fun r => r.map of1D)))) [] (fun _ => none)
      = .ok (([[[1, 2, 3], [4, 5, 6]], [[7, 8, 9], [10, 11, 12]]] :
            List (List (List ℚ))).map (fun r => of2D (transposeRect 3 r))) ∧
    (([[[1, 2, 3], [4, 5, 6]], [[7, 8, 9], [10, 11, 12]]] :
            List (List (List ℚ))).map (fun r => of2D (transposeRect 3 r))).length =
      ([[[1, 2, 3], [4, 5, 6]], [[7, 8, 9], [10, 11, 12]]] :
            List (List (List ℚ))).length ∧
    ∀ a ∈ ([[[1, 2, 3], [4, 5, 6]], [[7, 8, 9], [10, 11, 12]]] :
            List (List (List ℚ))).map (fun r => of2D (transposeRect 3 r)),
      a.shape = [3, 2] :=
  load_valid_atom_features_pkl_1D "atom.pkl"
    [[[1, 2, 3], [4, 5, 6]], [[7, 8, 9], [10, 11, 12]]] [] (fun _ => none) 2 3
    (by decide) (by decide) (by decide) (by decide) (by decide) (by decide)

theorem load_valid_atom_features_sdf_eval (path : String) (tbl : SdfTable)
    (smiles : List String) (numAtoms : String → Option Nat)
    (hext : splitextExt path = ".sdf") :
    load_valid_atom_features path (.sdf tbl) smiles numAtoms =
      load_atom_sdf tbl smiles numAtoms := by
  have hpkl : splitextExt path ∉ [".pkl", ".pckl", ".pickle"] := by rw [hext]; decide
  cases h : load_atom_sdf tbl smiles numAtoms with
  | ok fs =>
    simp [load_valid_atom_features, hpkl, hext, h, exceptBind_ok]
    rfl
  | error e =>
    simp [load_valid_atom_features, hpkl, hext, h, exceptBind_error]
    rfl

theorem load_atom_sdf_eval (tbl : SdfTable) (smiles : List String)
    (numAtoms : String → Option Nat) (k0 : String) (firstRow : List SdfCell)
    (R : List (String × List SdfCell))
    (hded : dedupeByKey [] (tbl.index.zip tbl.cells) = (k0, firstRow) :: R) :
    load_atom_sdf tbl smiles numAtoms =
      sdfProcessRows ((k0, firstRow) :: R) firstRow smiles numAtoms := by
  unfold load_atom_sdf
  rw [hded]

theorem sdfProcessRows_nan (rows1 : List (String × List SdfCell))
    (firstRow : List SdfCell) (smiles : List String) (numAtoms : String → Option Nat)
    (hany : (reindexRows (rows1.map (fun p => (p.1, applyMask (sdfColMask firstRow) p.2)))
        ((sdfColMask firstRow).count true) smiles).any
        (fun p => p.2.any (fun c => c = SdfCell.na)) = true) :
    sdfProcessRows rows1 firstRow smiles numAtoms =
      .error (.valueError "Invalid custom atomic descriptors file, Nan found in data") := by
  unfold sdfProcessRows
  simp only [hany]
  rfl

theorem dedupeByKey_subset (l : List (String × List SdfCell)) :
    ∀ (seen : List String), ∀ p ∈ dedupeByKey seen l, p ∈ l := by
  induction l with
  | nil =>
    intro seen p hp
    exact absurd hp (List.not_mem_nil p)
  | cons q t ih =>
    intro seen p hp
    obtain ⟨k, v⟩ := q
    rw [show dedupeByKey seen ((k, v) :: t) =
        (if k ∈ seen then dedupeByKey seen t
         else (k, v) :: dedupeByKey (k :: seen) t) from rfl] at hp
    split at hp
    · exact List.mem_cons_of_mem _ (ih seen p hp)
    · rcases List.mem_cons.1 hp with rfl | hp'
      · exact List.mem_cons_self _ _
      · exact List.mem_cons_of_mem _ (ih (k :: seen) p hp')

/-- C7 counterexample: the explicit error raised by the `.sdf` branch on
a missing identifier has message
`Invalid custom atomic descriptors file, Nan found in data`, which does
not contain the string `NaN found` (the code writes `Nan`, not `NaN`). -/
theorem sdf_nan_message_counterexample :
    load_valid_atom_features "mols.sdf" (.sdf ⟨["C"], [[SdfCell.str "1,2"]]⟩) ["N"]
        (fun _ => some 1)
      = .error (.valueError "Invalid custom atomic descriptors file, Nan found in data") ∧
    containsSubstr "Invalid custom atomic descriptors file, Nan found in data" "NaN found"
      = false :=
  ⟨rfl, by decide⟩

/-- C7 (amended): in the `.sdf` branch, when the caller-supplied
identifier list contains an identifier absent from the source table (and
the table has at least one atomic-descriptor column, i.e. a
comma-containing string in its first row), the call fails with the
explicit `ValueError` whose message contains `Nan found` (spelled `Nan`,
not `NaN`, in the code). -/
theorem load_valid_atom_features_sdf_missing_id (path : String) (i0 : String)
    (irest : List String) (c0 : List SdfCell) (crest : List (List SdfCell))
    (smiles : List String) (s : String) (numAtoms : String → Option Nat) (str0 : String)
    (hext : splitextExt path = ".sdf")
    (hs : s ∈ smiles) (habs : s ∉ i0 :: irest)
    (hcell : SdfCell.str str0 ∈ c0) (hcomma : ',' ∈ str0.toList) :
    load_valid_atom_features path (.sdf ⟨i0 :: irest, c0 :: crest⟩) smiles numAtoms
      = .error (.valueError "Invalid custom atomic descriptors file, Nan found in data") ∧
    containsSubstr "Invalid custom atomic descriptors file, Nan found in data" "Nan found"
      = true := by
  refine ⟨?_, by decide⟩
  rw [load_valid_atom_features_sdf_eval path _ smiles numAtoms hext]
  have hded : dedupeByKey [] ((⟨i0 :: irest, c0 :: crest⟩ : SdfTable).index.zip
      (⟨i0 :: irest, c0 :: crest⟩ : SdfTable).cells) =
      (i0, c0) :: dedupeByKey [i0] (irest.zip crest) := by
    show dedupeByKey [] ((i0, c0) :: irest.zip crest) = _
    rw [show dedupeByKey [] ((i0, c0) :: irest.zip crest) =
        (if i0 ∈ ([] : List String) then dedupeByKey [] (irest.zip crest)
         else (i0, c0) :: dedupeByKey [i0] (irest.zip crest)) from rfl]
    rw [if_neg (List.not_mem_nil i0)]
  rw [load_atom_sdf_eval _ smiles numAtoms i0 c0 _ hded]
  apply sdfProcessRows_nan
  rw [List.any_eq_true]
  have hkeys : ∀ p ∈ ((i0, c0) :: dedupeByKey [i0] (irest.zip crest)).map
      (fun p => (p.1, applyMask (sdfColMask c0) p.2)), p.1 ≠ s := by
    intro p hp
    rcases List.mem_map.1 hp with ⟨q, hq, rfl⟩
    show q.1 ≠ s
    rcases List.mem_cons.1 hq with rfl | hq'
    · exact fun h => habs (h ▸ List.mem_cons_self _ _)
    · obtain ⟨a, b⟩ := q
      have haz : a ∈ irest := (List.of_mem_zip (dedupeByKey_subset (irest.zip crest) [i0]
        (a, b) hq')).1
      exact fun h => habs (h ▸ List.mem_cons_of_mem _ haz)
  have hlook : (((i0, c0) :: dedupeByKey [i0] (irest.zip crest)).map
      (fun p => (p.1, applyMask (sdfColMask c0) p.2))).lookup s = none :=
    lookup_none_of_keys _ s hkeys
  have hcount : 0 < (sdfColMask c0).count true := by
    have htrue : true ∈ sdfColMask c0 := by
      refine List.mem_map.2 ⟨SdfCell.str str0, hcell, ?_⟩
      show (str0.toList.contains ',') = true
      simpa using hcomma
    simpa using List.count_pos_iff.2 htrue
  refine ⟨(s, List.replicate ((sdfColMask c0).count true) SdfCell.na), ?_, ?_⟩
  · unfold reindexRows
    refine List.mem_map.2 ⟨s, hs, ?_⟩
    rw [hlook]
  · rw [List.any_eq_true]
    refine ⟨SdfCell.na, ?_, by decide⟩
    rw [List.mem_replicate]
    exact ⟨by omega, rfl⟩

/-- Witness for C7 (amended): the concrete table indexed by `C` queried
with the absent identifier `N`. -/
theorem load_valid_atom_features_sdf_missing_id_witness :
    load_valid_atom_features "mols.sdf" (.sdf ⟨["C"], [[SdfCell.str "1,2"]]⟩) ["N"]
        (fun _ => some 1)
      = .error (.valueError "Invalid custom atomic descriptors file, Nan found in data") ∧
    containsSubstr "Invalid custom atomic descriptors file, Nan found in data" "Nan found"
      = true :=
  load_valid_atom_features_sdf_missing_id "mols.sdf" "C" [] [SdfCell.str "1,2"] [] ["N"]
    "N" (fun _ => some 1) "1,2" (by decide) (by decide) (by decide) (by decide) (by decide)

theorem zip_map_fst_map {β γ : Type} (l : List (String × β)) (g : (String × β) → γ) :
    (l.map Prod.fst).zip (l.map g) = l.map (fun p => (p.1, g p)) := by
  induction l with
  | nil => rfl
  | cons q t ih => simp [ih]

theorem dedupeByKey_eq_self (l : List (String × List SdfCell)) :
    ∀ seen : List String, (∀ p ∈ l, p.1 ∉ seen) → (l.map Prod.fst).Nodup →
      dedupeByKey seen l = l := by
  induction l with
  | nil => intro seen _ _; rfl
  | cons q t ih =>
    intro seen hseen hnd
    obtain ⟨k, v⟩ := q
    have hnd' : (k :: t.map Prod.fst).Nodup := hnd
    have hk : k ∉ seen := hseen (k, v) (List.mem_cons_self _ _)
    rw [show dedupeByKey seen ((k, v) :: t) =
        (if k ∈ seen then dedupeByKey seen t
         else (k, v) :: dedupeByKey (k :: seen) t) from rfl, if_neg hk]
    have hknot : k ∉ t.map Prod.fst := (List.nodup_cons.1 hnd').1
    congr 1
    refine ih (k :: seen) ?_ (List.nodup_cons.1 hnd').2
    intro p hp
    rw [List.mem_cons]
    rintro (h | h)
    · exact hknot (h ▸ List.mem_map_of_mem Prod.fst hp)
    · exact hseen p (List.mem_cons_of_mem _ hp) h

theorem applyMask_all_true (mask : List Bool) :
    ∀ row : List SdfCell, mask.length = row.length → (∀ b ∈ mask, b = true) →
      applyMask mask row = row := by
  induction mask with
  | nil =>
    intro row hlen _
    match row, hlen with
    | [], _ => rfl
  | cons b mt ih =>
    intro row hlen htrue
    match row, hlen with
    | c :: rt, hlen =>
      have hb := htrue b (List.mem_cons_self _ _)
      subst hb
      show ((c, true) :: rt.zip mt).filterMap
          (fun p => if p.2 = true then some p.1 else none) = c :: rt
      rw [List.filterMap_cons]
      show c :: (rt.zip mt).filterMap (fun p => if p.2 = true then some p.1 else none)
          = c :: rt
      rw [show (rt.zip mt).filterMap (fun p => if p.2 = true then some p.1 else none)
          = applyMask mt rt from rfl,
        ih rt (by simpa using hlen) (fun b' hb' => htrue b' (List.mem_cons_of_mem _ hb'))]

theorem reindexRows_self (l : List (String × List SdfCell)) (ncols : Nat)
    (hnd : (l.map Prod.fst).Nodup) :
    reindexRows l ncols (l.map Prod.fst) = l := by
  induction l with
  | nil => rfl
  | cons q t ih =>
    obtain ⟨k, v⟩ := q
    have hnd' : (k :: t.map Prod.fst).Nodup := hnd
    show ((k :: t.map Prod.fst).map (fun s =>
      match ((k, v) :: t).lookup s with
      | some cs => (s, cs)
      | none => (s, List.replicate ncols SdfCell.na))) = (k, v) :: t
    rw [List.map_cons]
    have hhead : (match ((k, v) :: t).lookup k with
        | some cs => (k, cs)
        | none => (k, List.replicate ncols SdfCell.na)) = (k, v) := by
      rw [List.lookup, beq_self_eq_true]
    rw [hhead]
    have hknot : k ∉ t.map Prod.fst := (List.nodup_cons.1 hnd').1
    have htail : ∀ s ∈ t.map Prod.fst,
        (fun s => match ((k, v) :: t).lookup s with
          | some cs => (s, cs)
          | none => (s, List.replicate ncols SdfCell.na)) s =
        (fun s => match t.lookup s with
          | some cs => (s, cs)
          | none => (s, List.replicate ncols SdfCell.na)) s := by
      intro s hsmem
      have hne : (s == k) = false := by
        rw [beq_eq_false_iff_ne]
        exact fun h => hknot (h ▸ hsmem)
      show (match ((k, v) :: t).lookup s with
        | some cs => (s, cs)
        | none => (s, List.replicate ncols SdfCell.na)) = _
      rw [List.lookup, hne]
    rw [List.map_congr_left htail]
    exact congrArg _ (ih (List.nodup_cons.1 hnd').2)

/-- Evaluation of the parse/truncate/stack tail of the `.sdf` branch on
rows of comma-separated strings: every cell is parsed to its numeric
vector and truncated via `x[:num_atoms]` (`List.take`), so a vector
longer than the atom count loses its tail and a shorter one is kept
whole, and each row is stacked into a 2D per-molecule array. -/
theorem sdfParseStack_eval (rows : List (String × List String)) (nf : String → Nat)
    (vval : String → List ℚ) (vl : String → Nat)
    (hKpos : ∀ p ∈ rows, p.2 ≠ [])
    (hparse : ∀ p ∈ rows, ∀ c ∈ p.2, parseSdfCell (.str c) = .ok (vval c))
    (hvl : ∀ p ∈ rows, ∀ c ∈ p.2, (vval c).length = vl p.1) :
    sdfParseStack (rows.map (fun p => (p.1, p.2.map SdfCell.str))) (fun s => some (nf s)) =
      .ok (rows.map (fun p => of2D (transposeRect (min (nf p.1) (vl p.1))
        (p.2.map (fun c => (vval c).take (nf p.1)))))) := by
  unfold sdfParseStack
  have h1 : (rows.map (fun p => (p.1, p.2.map SdfCell.str))).mapM (fun p => do
      let vs ← p.2.mapM parseSdfCell
      pure (p.1, vs)) = Except.ok (rows.map (fun p => (p.1, p.2.map vval))) := by
    rw [mapM_map]
    refine mapM_ok_of_forall _ _ rows ?_
    intro p hp
    have hinner : (p.2.map SdfCell.str).mapM parseSdfCell = .ok (p.2.map vval) := by
      rw [mapM_map]
      exact mapM_ok_of_forall _ _ p.2 (fun c hc => hparse p hp c hc)
    show ((p.2.map SdfCell.str).mapM parseSdfCell >>= fun vs => pure (p.1, vs)) = _
    rw [hinner, exceptBind_ok]
    rfl
  rw [h1, exceptBind_ok]
  have h2 : ((rows.map (fun p => (p.1, p.2.map SdfCell.str))).map Prod.fst).mapM
      (fun s => match some (nf s) with
        | some n => Except.ok n
        | none => Except.error (PyError.attributeError "GetNumAtoms")) =
      Except.ok (((rows.map (fun p => (p.1, p.2.map SdfCell.str))).map Prod.fst).map nf) :=
    mapM_ok_of_forall _ nf _ (fun s _ => rfl)
  rw [h2, exceptBind_ok]
  simp only [List.map_map, mapM_map]
  refine mapM_ok_of_forall _ _ rows ?_
  intro p hp
  have hne' : p.2.map (fun c => (vval c).take (nf p.1)) ≠ [] := by
    intro h0
    exact hKpos p hp (List.map_eq_nil_iff.1 h0)
  have hlen' : ∀ v ∈ p.2.map (fun c => (vval c).take (nf p.1)),
      v.length = min (nf p.1) (vl p.1) := by
    intro v hv
    rcases List.mem_map.1 hv with ⟨c, hc, rfl⟩
    rw [List.length_take, hvl p hp c hc]
  have hmain := stackAxis1_of1D (p.2.map (fun c => (vval c).take (nf p.1)))
    (min (nf p.1) (vl p.1)) hne' hlen'
  simpa only [Function.comp, List.map_map, Option.getD_some] using hmain

/-- When the column mask keeps every column, the index has no
duplicates, the reindex target is the table's own index, and no cell is
null, the `.sdf` branch reduces to its parse/truncate/stack tail. -/
theorem sdfProcessRows_clean (rows1 : List (String × List SdfCell))
    (firstRow : List SdfCell) (numAtoms : String → Option Nat)
    (hnd : (rows1.map Prod.fst).Nodup)
    (hlen : ∀ p ∈ rows1, (sdfColMask firstRow).length = p.2.length)
    (hmaskall : ∀ b ∈ sdfColMask firstRow, b = true)
    (hnonan : rows1.any (fun p => p.2.any (fun c => c = SdfCell.na)) = false) :
    sdfProcessRows rows1 firstRow (rows1.map Prod.fst) numAtoms =
      sdfParseStack rows1 numAtoms := by
  unfold sdfProcessRows
  have hmask2 : rows1.map (fun p => (p.1, applyMask (sdfColMask firstRow) p.2)) = rows1 := by
    have hpt : ∀ q ∈ rows1, (fun p => (p.1, applyMask (sdfColMask firstRow) p.2)) q
        = id q := by
      intro q hq
      show (q.1, applyMask (sdfColMask firstRow) q.2) = q
      rw [applyMask_all_true _ q.2 (hlen q hq) hmaskall]
    rw [List.map_congr_left hpt, List.map_id]
  rw [hmask2, reindexRows_self rows1 _ hnd, hnonan]
  rfl

/-- C8: in the `.sdf` branch, every parsed per-atom vector is truncated
to the atom count obtained from the chemistry toolkit via
`x[:num_atoms]`, i.e. `List.take`: a vector strictly longer than the
atom count silently loses its excess tail, while a shorter vector passes
through unchanged — no error and no length check — and the call still
succeeds, stacking each row's truncated vectors column-wise. -/
theorem load_valid_atom_features_sdf_truncation (path : String)
    (rows : List (String × List String)) (nf : String → Nat)
    (vval : String → List ℚ) (vl : String → Nat) (K : Nat)
    (hext : splitextExt path = ".sdf")
    (hnd : (rows.map Prod.fst).Nodup) (hne : rows ≠ [])
    (hK : ∀ p ∈ rows, p.2.length = K) (hKpos : 0 < K)
    (hcomma : ∀ p ∈ rows, ∀ c ∈ p.2, ',' ∈ c.toList)
    (hparse : ∀ p ∈ rows, ∀ c ∈ p.2, parseSdfCell (.str c) = .ok (vval c))
    (hvl : ∀ p ∈ rows, ∀ c ∈ p.2, (vval c).length = vl p.1) :
    load_valid_atom_features path
        (.sdf ⟨rows.map Prod.fst, rows.map (fun p => p.2.map SdfCell.str)⟩)
        (rows.map Prod.fst) (fun s => some (nf s))
      = .ok (rows.map (fun p => of2D (transposeRect (min (nf p.1) (vl p.1))
          (p.2.map (fun c => (vval c).take (nf p.1)))))) := by
  rw [load_valid_atom_features_sdf_eval path _ _ _ hext]
  obtain ⟨p0, pt, rfl⟩ : ∃ p0 pt, rows = p0 :: pt := by
    match rows, hne with
    | p0 :: pt, _ => exact ⟨p0, pt, rfl⟩
  have hndC : ((((p0 :: pt)).map (fun p => (p.1, p.2.map SdfCell.str))).map Prod.fst).Nodup := by
    rw [List.map_map]
    exact hnd
  have hded : dedupeByKey []
      ((((p0 :: pt)).map Prod.fst).zip (((p0 :: pt)).map (fun p => p.2.map SdfCell.str))) =
      (p0.1, p0.2.map SdfCell.str) ::
        pt.map (fun p => (p.1, p.2.map SdfCell.str)) := by
    rw [zip_map_fst_map]
    exact dedupeByKey_eq_self (((p0 :: pt)).map (fun p => (p.1, p.2.map SdfCell.str))) []
      (fun p _ hmem => List.not_mem_nil _ hmem) hndC
  rw [load_atom_sdf_eval _ _ _ _ _ _ hded]
  have hmaskall : ∀ b ∈ sdfColMask (p0.2.map SdfCell.str), b = true := by
    intro b hb
    rcases List.mem_map.1 hb with ⟨c', hc', rfl⟩
    rcases List.mem_map.1 hc' with ⟨c, hc, rfl⟩
    show (c.toList.contains ',') = true
    simpa using hcomma p0 (List.mem_cons_self _ _) c hc
  have hmasklen : ∀ p ∈ (((p0 :: pt)).map (fun p => (p.1, p.2.map SdfCell.str))),
      (sdfColMask (p0.2.map SdfCell.str)).length = p.2.length := by
    intro q hq
    rcases List.mem_map.1 hq with ⟨x, hx, rfl⟩
    show (sdfColMask (p0.2.map SdfCell.str)).length = (x.2.map SdfCell.str).length
    simp [sdfColMask, hK p0 (List.mem_cons_self _ _), hK x hx]
  have hnonan : (((p0 :: pt)).map (fun p => (p.1, p.2.map SdfCell.str))).any
      (fun p => p.2.any (fun c => c = SdfCell.na)) = false := by
    rw [List.any_eq_false]
    intro q hq
    rcases List.mem_map.1 hq with ⟨x, hx, rfl⟩
    show ¬ ((x.2.map SdfCell.str).any (fun c => c = SdfCell.na)) = true
    rw [List.any_eq_true]
    rintro ⟨c, hc, hcna⟩
    rcases List.mem_map.1 hc with ⟨y, hy, rfl⟩
    simp at hcna
  have hKpos' : ∀ p ∈ (p0 :: pt), p.2 ≠ [] := by
    intro p hp h0
    have := hK p hp
    rw [h0] at this
    simp at this
    omega
  have hclean := sdfProcessRows_clean
    (((p0 :: pt)).map (fun p => (p.1, p.2.map SdfCell.str)))
    (p0.2.map SdfCell.str) (fun s => some (nf s)) hndC hmasklen hmaskall hnonan
  have heval := sdfParseStack_eval (p0 :: pt) nf vval vl hKpos' hparse hvl
  have hsm : (((p0 :: pt).map (fun p => (p.1, p.2.map SdfCell.str))).map Prod.fst) =
      (p0 :: pt).map Prod.fst := by
    rw [List.map_map]
    rfl
  rw [hsm] at hclean
  exact hclean.trans heval

/-- Witness for C8: row `C` has atom count 2 but vectors of length 3
(the third value is silently dropped), row `N` has atom count 5 but
vectors of length 2 (kept whole, no error): the call succeeds with the
truncated stacks. -/
theorem load_valid_atom_features_sdf_truncation_witness :
    load_valid_atom_features "mols2.sdf"
        (.sdf ⟨([("C", ["1,2,3", "4,5,6"]), ("N", ["7,8", "9,10"])] :
            List (String × List String)).map Prod.fst,
          ([("C", ["1,2,3", "4,5,6"]), ("N", ["7,8", "9,10"])] :
            List (String × List String)).map (fun p => p.2.map SdfCell.str)⟩)
        (([("C", ["1,2,3", "4,5,6"]), ("N", ["7,8", "9,10"])] :
            List (String × List String)).map Prod.fst)
        (fun s => some (if s = "C" then 2 else 5))
      = .ok (([("C", ["1,2,3", "4,5,6"]), ("N", ["7,8", "9,10"])] :
            List (String × List String)).map (fun p =>
          of2D (transposeRect
            (min (if p.1 = "C" then 2 else 5) (if p.1 = "C" then 3 else 2))
            (p.2.map (fun c =>
              ((if c = "1,2,3" then [1, 2, 3]
                else if c = "4,5,6" then [4, 5, 6]
                else if c = "7,8" then [7, 8]
                else ([9, 10] : List ℚ)) : List ℚ).take
                (if p.1 = "C" then 2 else 5)))))) :=
  load_valid_atom_features_sdf_truncation "mols2.sdf"
    [("C", ["1,2,3", "4,5,6"]), ("N", ["7,8", "9,10"])]
    (fun s => if s = "C" then 2 else 5)
    (fun c =>
      if c = "1,2,3" then [1, 2, 3]
      else if c = "4,5,6" then [4, 5, 6]
      else if c = "7,8" then [7, 8]
      else [9, 10])
    (fun s => if s = "C" then 3 else 2) 2
    (by decide) (by decide) (by decide) (by decide) (by decide) (by decide)
    (by decide) (by decide)

end ChempropFeatures
